import Mathlib

/-!
Shallow embedding of `mq/sqs/sqs.go` (package `sqs` of ChewZ-life/go-pkg).

The Go file implements a long-poll SQS consumer with two worker-loop
variants: `processMessages` (wrapped mode, the body is a JSON envelope
produced by SNS) and `processMessagesV1` (raw mode, the body is passed to
the callback verbatim).  External collaborators (the AWS session builder,
the SQS receive and delete-batch calls, and the jsoniter unmarshaller) are
modelled as per-cycle inputs resp. function parameters; the logger is
modelled by an explicit event trace.  Wall-clock timing (the slow-handler
log guarded by `HandleTimeoutMS`) is not modelled: no claim depends on it.
-/

namespace GoPkg.Sqs

/-- Go constant `HandleTimeoutMS = int64(1000)` (slow-handler threshold). -/
def HandleTimeoutMS : Int := 1000

/-- Go `type MessageCB func(msg string) error`: `none` models a nil error
(success), `some e` models a non-nil error with text `e`. -/
def MessageCB : Type := String → Option String

/-- Go `SQSConfig` (mapstructure/json tags dropped; Go `int` as `Int`,
Go `*string` as `Option String`). -/
structure SQSConfig where
  ARN : String
  Region : String
  APIKey : String
  SecretKey : String
  QueueUrl : String
  MessageGroupId : Option String
  ConsumerCnt : Int
  ProducerCnt : Int

/-- Go `SQS` struct: config and callback (the `*log.Log` collaborator is
modelled by the event trace of the loops, not stored). A nil Go callback
is `none`. -/
structure SQS where
  config : SQSConfig
  messageCB : Option MessageCB

/-- The AWS `sqs.Message` fields the code reads: `MessageId`,
`ReceiptHandle`, `Body`, all Go `*string`. -/
structure Message where
  MessageId : Option String
  ReceiptHandle : Option String
  Body : Option String
  deriving Repr, DecidableEq

/-- The AWS `sqs.DeleteMessageBatchRequestEntry` fields the code sets. -/
structure DeleteEntry where
  Id : Option String
  ReceiptHandle : Option String
  deriving Repr, DecidableEq

/-- The anonymous envelope struct of `processMessages`:
fields `Message` and `Timestamp` (JSON tags `Message`, `Timestamp`). -/
structure Envelope where
  Message : String
  Timestamp : String
  deriving Repr, DecidableEq

/-- Opaque AWS session handle (`*session.Session`); identity suffices. -/
abbrev Session := Nat

/-- Opaque SQS service handle (`*sqs.SQS`). -/
abbrev Service := Nat

/-- `sqs.New(cfgSession)`: deterministic construction of the service
handle from the session handle; never fails in the source. -/
def sqsNew (s : Session) : Service := s

/-- One observable step of a worker cycle: each log call of the Go source
plus the two remote calls whose occurrence the spec talks about
(handler invocation and the delete-batch call). -/
inductive Event where
  | sessionLogError (e : String)
  | sessionInitLog
  | receiveLogError (e : String)
  | receivedLog (n : Nat)
  | decodeCall (body : String)
  | poisonLogError (e body : String)
  | handleInfoLog (i : Nat) (body : String)
  | handlerCall (arg : String)
  | handleLogError (e m : String)
  | deleteCall (entries : List DeleteEntry)
  | deleteLogError (e : String)
  deriving Repr, DecidableEq

/-- Outcomes of the external calls a single cycle can make:
`session.NewSession`, `ReceiveMessageWithContext`,
`DeleteMessageBatchWithContext`.  Errors carry their text. -/
structure CycleEnv where
  sessionResult : Except String Session
  receiveResult : Except String (List Message)
  deleteResult : Except String Unit

/-- The per-worker variables that persist across cycles:
`var cfgSession *session.Session; var service *sqs.SQS`. -/
structure LoopState where
  cfgSession : Option Session
  service : Option Service
  deriving Repr, DecidableEq

/-- `if service == nil { service = sqs.New(cfgSession) }`. -/
def ensureService (st : LoopState) (sess : Session) : Option Service :=
  match st.service with
  | some sv => some sv
  | none => some (sqsNew sess)

/-- Substring tester standing for Go `strings.Contains`. -/
def strContainsAux (sub : List Char) : List Char → Bool
  | [] => sub.isPrefixOf []
  | c :: cs => sub.isPrefixOf (c :: cs) || strContainsAux sub cs

/-- Go `strings.Contains(s, sub)`. -/
def strContains (s sub : String) : Bool :=
  strContainsAux sub.toList s.toList

/-- `processMessages`, body of the per-message loop (lines 132-169):
skip nil bodies; unmarshal the envelope — on failure stage a delete entry
(poison) and log without calling the handler; on success call the handler
when non-nil, staging a delete entry only if it returns nil. -/
def processOne (parse : String → Except String Envelope) (cb : Option MessageCB)
    (m : Message) : List Event × Option DeleteEntry :=
  match m.Body with
  | none => ([], none)
  | some body =>
    match parse body with
    | .error e =>
        ([.decodeCall body, .poisonLogError e body],
         some ⟨m.MessageId, m.ReceiptHandle⟩)
    | .ok envl =>
        match cb with
        | none => ([.decodeCall body], none)
        | some f =>
            match f envl.Message with
            | some e =>
                ([.decodeCall body, .handlerCall envl.Message,
                  .handleLogError e envl.Message], none)
            | none =>
                ([.decodeCall body, .handlerCall envl.Message],
                 some ⟨m.MessageId, m.ReceiptHandle⟩)

/-- `processMessages`, the whole `for _, msg := range msgResult.Messages`
loop: events in order, delete entries appended in order. -/
def processBatch (parse : String → Except String Envelope)
    (cb : Option MessageCB) : List Message → List Event × List DeleteEntry
  | [] => ([], [])
  | m :: ms =>
    let r := processOne parse cb m
    let rest := processBatch parse cb ms
    (r.1 ++ rest.1, r.2.toList ++ rest.2)

/-- `processMessagesV1`, body of the per-message loop (lines 253-277):
skip nil bodies; log the message; call the handler verbatim on the body
when non-nil, staging a delete entry only if it returns nil.  `i` is the
range index used in the info log. -/
def processOneV1 (cb : Option MessageCB) (i : Nat) (m : Message) :
    List Event × Option DeleteEntry :=
  match m.Body with
  | none => ([], none)
  | some body =>
    match cb with
    | none => ([.handleInfoLog i body], none)
    | some f =>
        match f body with
        | some e =>
            ([.handleInfoLog i body, .handlerCall body,
              .handleLogError e body], none)
        | none =>
            ([.handleInfoLog i body, .handlerCall body],
             some ⟨m.MessageId, m.ReceiptHandle⟩)

/-- `for i, msg := range msgResult.Messages` of `processMessagesV1`,
starting at index `i`. -/
def processBatchV1Aux (cb : Option MessageCB) :
    Nat → List Message → List Event × List DeleteEntry
  | _, [] => ([], [])
  | i, m :: ms =>
    let r := processOneV1 cb i m
    let rest := processBatchV1Aux cb (i + 1) ms
    (r.1 ++ rest.1, r.2.toList ++ rest.2)

/-- The full per-message loop of `processMessagesV1`. -/
def processBatchV1 (cb : Option MessageCB) (msgs : List Message) :
    List Event × List DeleteEntry :=
  processBatchV1Aux cb 0 msgs

/-- `processMessages` after the client handles exist (lines 115-188):
receive (logging every error), return on an empty batch, run the
per-message loop, return if nothing was staged, else issue the
delete-batch call and log its failure.  `evs` are the events already
emitted by session bring-up in this cycle. -/
def processMessagesRest (parse : String → Except String Envelope)
    (cb : Option MessageCB) (recv : Except String (List Message))
    (del : Except String Unit) (st : LoopState) (evs : List Event) :
    LoopState × List Event :=
  match recv with
  | .error e => (st, evs ++ [.receiveLogError e])
  | .ok msgs =>
    if msgs.length = 0 then (st, evs)
    else
      let pr := processBatch parse cb msgs
      if pr.2.length = 0 then (st, evs ++ pr.1)
      else
        match del with
        | .error e => (st, evs ++ pr.1 ++ [.deleteCall pr.2, .deleteLogError e])
        | .ok _ => (st, evs ++ pr.1 ++ [.deleteCall pr.2])

/-- One iteration of the `for { func() { ... }() }` loop of
`processMessages` (lines 81-188): build the session only if none exists
(a failure logs and ends the cycle), build the service only if none
exists, then receive/process/delete. -/
def processMessagesCycle (parse : String → Except String Envelope)
    (cb : Option MessageCB) (env : CycleEnv) (st : LoopState) :
    LoopState × List Event :=
  match st.cfgSession with
  | none =>
    match env.sessionResult with
    | .error e => (st, [.sessionLogError e])
    | .ok sess =>
        processMessagesRest parse cb env.receiveResult env.deleteResult
          ⟨some sess, ensureService st sess⟩ [.sessionInitLog]
  | some sess =>
      processMessagesRest parse cb env.receiveResult env.deleteResult
        ⟨some sess, ensureService st sess⟩ []

/-- `processMessagesV1` after the client handles exist (lines 232-296):
like the wrapped variant except that a receive error whose text contains
"context deadline exceeded" is not logged, a non-empty batch is logged
with its length, and no envelope decoding happens. -/
def processMessagesV1Rest (cb : Option MessageCB)
    (recv : Except String (List Message)) (del : Except String Unit)
    (st : LoopState) (evs : List Event) : LoopState × List Event :=
  match recv with
  | .error e =>
    if strContains e "context deadline exceeded" then (st, evs)
    else (st, evs ++ [.receiveLogError e])
  | .ok msgs =>
    if msgs.length = 0 then (st, evs)
    else
      let pr := processBatchV1 cb msgs
      if pr.2.length = 0 then (st, evs ++ [.receivedLog msgs.length] ++ pr.1)
      else
        match del with
        | .error e =>
            (st, evs ++ [.receivedLog msgs.length] ++ pr.1
                 ++ [.deleteCall pr.2, .deleteLogError e])
        | .ok _ =>
            (st, evs ++ [.receivedLog msgs.length] ++ pr.1
                 ++ [.deleteCall pr.2])

/-- One iteration of the `for { func() { ... }() }` loop of
`processMessagesV1` (lines 199-297). -/
def processMessagesV1Cycle (cb : Option MessageCB) (env : CycleEnv)
    (st : LoopState) : LoopState × List Event :=
  match st.cfgSession with
  | none =>
    match env.sessionResult with
    | .error e => (st, [.sessionLogError e])
    | .ok sess =>
        processMessagesV1Rest cb env.receiveResult env.deleteResult
          ⟨some sess, ensureService st sess⟩ [.sessionInitLog]
  | some sess =>
      processMessagesV1Rest cb env.receiveResult env.deleteResult
        ⟨some sess, ensureService st sess⟩ []

/-- The `processMessages` worker loop, run for one cycle per entry of
`envs` (the infinite Go loop observed for finitely many cycles); returns
the final persistent state and each cycle's trace. -/
def processMessagesLoop (parse : String → Except String Envelope)
    (cb : Option MessageCB) :
    List CycleEnv → LoopState → LoopState × List (List Event)
  | [], st => (st, [])
  | env :: rest, st =>
    let c := processMessagesCycle parse cb env st
    let r := processMessagesLoop parse cb rest c.1
    (r.1, c.2 :: r.2)

/-- The `processMessagesV1` worker loop, one cycle per entry of `envs`. -/
def processMessagesV1Loop (cb : Option MessageCB) :
    List CycleEnv → LoopState → LoopState × List (List Event)
  | [], st => (st, [])
  | env :: rest, st =>
    let c := processMessagesV1Cycle cb env st
    let r := processMessagesV1Loop cb rest c.1
    (r.1, c.2 :: r.2)

/-- Go `for i := 0; i < n; i++ { go ... }`: the indices of the workers
actually started (empty when `n ≤ 0`). -/
def workerIndices (n : Int) : List Int :=
  (List.range n.toNat).map Int.ofNat

/-- `NewSQS` (lines 44-56): build the struct, start one wrapped worker
per `ConsumerCnt`, return the struct.  The second component records the
started workers. -/
def NewSQS (cfg : SQSConfig) (cb : Option MessageCB) : SQS × List Int :=
  (⟨cfg, cb⟩, workerIndices cfg.ConsumerCnt)

/-- `NewSQSV1` (lines 59-71): identical shape, raw workers. -/
def NewSQSV1 (cfg : SQSConfig) (cb : Option MessageCB) : SQS × List Int :=
  (⟨cfg, cb⟩, workerIndices cfg.ConsumerCnt)

/-- Observation: the arguments of the handler invocations in a trace. -/
def handlerArgsOf (evs : List Event) : List String :=
  evs.filterMap fun e =>
    match e with
    | .handlerCall a => some a
    | _ => none

/-- Observation: the delete entry a message contributes in wrapped mode
when the handler is nil — exactly the poison messages. -/
def poisonEntryOf (parse : String → Except String Envelope) (m : Message) :
    Option DeleteEntry :=
  match m.Body with
  | none => none
  | some b =>
    match parse b with
    | .error _ => some ⟨m.MessageId, m.ReceiptHandle⟩
    | .ok _ => none

/-- Staged entries of a cycle as a function of the cycle's own inputs
alone (used to state that nothing from an earlier cycle is resubmitted). -/
def entriesOfCycleEnv (parse : String → Except String Envelope)
    (cb : Option MessageCB) (env : CycleEnv) : List DeleteEntry :=
  match env.receiveResult with
  | .error _ => []
  | .ok msgs => (processBatch parse cb msgs).2

/-- Raw-mode analogue of `entriesOfCycleEnv`. -/
def entriesOfCycleEnvV1 (cb : Option MessageCB) (env : CycleEnv) :
    List DeleteEntry :=
  match env.receiveResult with
  | .error _ => []
  | .ok msgs => (processBatchV1 cb msgs).2

/-! ### Helper lemmas -/

theorem processBatch_snd (parse : String → Except String Envelope)
    (cb : Option MessageCB) (msgs : List Message) :
    (processBatch parse cb msgs).2 =
      msgs.filterMap (fun m => (processOne parse cb m).2) := by
  induction msgs with
  | nil => rfl
  | cons m ms ih =>
    simp only [processBatch, List.filterMap_cons, ih]
    cases (processOne parse cb m).2 <;> simp

theorem processOne_entry_shape (parse : String → Except String Envelope)
    (cb : Option MessageCB) (m : Message) (e : DeleteEntry)
    (h : (processOne parse cb m).2 = some e) :
    e = ⟨m.MessageId, m.ReceiptHandle⟩ := by
  cases hb : m.Body with
  | none => simp [processOne, hb] at h
  | some body =>
    cases hp : parse body with
    | error err => simp [processOne, hb, hp] at h; exact h.symm
    | ok envl =>
      cases cb with
      | none => simp [processOne, hb, hp] at h
      | some f =>
        cases hf : f envl.Message with
        | none => simp [processOne, hb, hp, hf] at h; exact h.symm
        | some err => simp [processOne, hb, hp, hf] at h

theorem count_filterMap_eq {α β : Type} [DecidableEq α] [DecidableEq β]
    (f : α → Option β) (l : List α) (b : β) :
    (l.filterMap f).count b =
      (l.filter (fun a => f a == some b)).length := by
  induction l with
  | nil => rfl
  | cons hd tl ih =>
    cases hfa : f hd with
    | none => simp [List.filterMap_cons, hfa, List.filter_cons, ih]
    | some b' =>
      by_cases hb : b' = b
      · subst hb
        simp [List.filterMap_cons, hfa, List.filter_cons, List.count_cons, ih]
      · simp [List.filterMap_cons, hfa, List.filter_cons, List.count_cons, ih,
          hb, Ne.symm hb]

theorem length_filter_le_of_imp {α : Type} (p q : α → Bool) (l : List α)
    (h : ∀ a, p a = true → q a = true) :
    (l.filter p).length ≤ (l.filter q).length :=
  (List.monotone_filter_right l h).length_le

theorem processBatch_append (parse : String → Except String Envelope)
    (cb : Option MessageCB) (l1 l2 : List Message) :
    processBatch parse cb (l1 ++ l2) =
      ((processBatch parse cb l1).1 ++ (processBatch parse cb l2).1,
       (processBatch parse cb l1).2 ++ (processBatch parse cb l2).2) := by
  induction l1 with
  | nil => simp [processBatch]
  | cons m ms ih => simp [processBatch, ih]

theorem processOneV1_snd_index (cb : Option MessageCB) (i j : Nat)
    (m : Message) : (processOneV1 cb i m).2 = (processOneV1 cb j m).2 := by
  cases hb : m.Body with
  | none => simp [processOneV1, hb]
  | some body =>
    cases cb with
    | none => simp [processOneV1, hb]
    | some f => cases hf : f body <;> simp [processOneV1, hb, hf]

theorem processBatchV1Aux_snd (cb : Option MessageCB) (msgs : List Message) :
    ∀ i, (processBatchV1Aux cb i msgs).2 =
      msgs.filterMap (fun m => (processOneV1 cb 0 m).2) := by
  induction msgs with
  | nil => intro i; rfl
  | cons m ms ih =>
    intro i
    simp only [processBatchV1Aux, List.filterMap_cons, ih,
      processOneV1_snd_index cb i 0 m]
    cases (processOneV1 cb 0 m).2 <;> simp

theorem processOneV1_entry_shape (cb : Option MessageCB) (i : Nat)
    (m : Message) (e : DeleteEntry)
    (h : (processOneV1 cb i m).2 = some e) :
    e = ⟨m.MessageId, m.ReceiptHandle⟩ := by
  cases hb : m.Body with
  | none => simp [processOneV1, hb] at h
  | some body =>
    cases cb with
    | none => simp [processOneV1, hb] at h
    | some f =>
      cases hf : f body with
      | none => simp [processOneV1, hb, hf] at h; exact h.symm
      | some err => simp [processOneV1, hb, hf] at h

theorem processBatchV1Aux_append (cb : Option MessageCB)
    (l1 l2 : List Message) : ∀ i,
    processBatchV1Aux cb i (l1 ++ l2) =
      ((processBatchV1Aux cb i l1).1
         ++ (processBatchV1Aux cb (i + l1.length) l2).1,
       (processBatchV1Aux cb i l1).2
         ++ (processBatchV1Aux cb (i + l1.length) l2).2) := by
  induction l1 with
  | nil => intro i; simp [processBatchV1Aux]
  | cons m ms ih =>
    intro i
    simp [processBatchV1Aux, ih (i + 1)]
    have h : i + 1 + ms.length = i + (ms.length + 1) := by omega
    constructor
    · rw [h]
    · rw [h]

theorem processOne_no_deleteCall (parse : String → Except String Envelope)
    (cb : Option MessageCB) (m : Message) (es : List DeleteEntry) :
    Event.deleteCall es ∉ (processOne parse cb m).1 := by
  cases hb : m.Body with
  | none => simp [processOne, hb]
  | some body =>
    cases hp : parse body with
    | error err => simp [processOne, hb, hp]
    | ok envl =>
      cases cb with
      | none => simp [processOne, hb, hp]
      | some f => cases hf : f envl.Message <;> simp [processOne, hb, hp, hf]

theorem processBatch_no_deleteCall (parse : String → Except String Envelope)
    (cb : Option MessageCB) (msgs : List Message) (es : List DeleteEntry) :
    Event.deleteCall es ∉ (processBatch parse cb msgs).1 := by
  induction msgs with
  | nil => simp [processBatch]
  | cons m ms ih =>
    simp only [processBatch, List.mem_append]
    rintro (h | h)
    · exact processOne_no_deleteCall parse cb m es h
    · exact ih h

theorem processOneV1_no_deleteCall (cb : Option MessageCB) (i : Nat)
    (m : Message) (es : List DeleteEntry) :
    Event.deleteCall es ∉ (processOneV1 cb i m).1 := by
  cases hb : m.Body with
  | none => simp [processOneV1, hb]
  | some body =>
    cases cb with
    | none => simp [processOneV1, hb]
    | some f => cases hf : f body <;> simp [processOneV1, hb, hf]

theorem processBatchV1Aux_no_deleteCall (cb : Option MessageCB)
    (msgs : List Message) (es : List DeleteEntry) : ∀ i,
    Event.deleteCall es ∉ (processBatchV1Aux cb i msgs).1 := by
  induction msgs with
  | nil => intro i; simp [processBatchV1Aux]
  | cons m ms ih =>
    intro i
    simp only [processBatchV1Aux, List.mem_append]
    rintro (h | h)
    · exact processOneV1_no_deleteCall cb i m es h
    · exact ih (i + 1) h

theorem processOneV1_no_decode (cb : Option MessageCB) (i : Nat)
    (m : Message) (b : String) :
    Event.decodeCall b ∉ (processOneV1 cb i m).1 := by
  cases hb : m.Body with
  | none => simp [processOneV1, hb]
  | some body =>
    cases cb with
    | none => simp [processOneV1, hb]
    | some f => cases hf : f body <;> simp [processOneV1, hb, hf]

theorem processBatchV1Aux_no_decode (cb : Option MessageCB)
    (msgs : List Message) (b : String) : ∀ i,
    Event.decodeCall b ∉ (processBatchV1Aux cb i msgs).1 := by
  induction msgs with
  | nil => intro i; simp [processBatchV1Aux]
  | cons m ms ih =>
    intro i
    simp only [processBatchV1Aux, List.mem_append]
    rintro (h | h)
    · exact processOneV1_no_decode cb i m b h
    · exact ih (i + 1) h

theorem handlerArgsOf_append (a b : List Event) :
    handlerArgsOf (a ++ b) = handlerArgsOf a ++ handlerArgsOf b := by
  simp [handlerArgsOf, List.filterMap_append]

theorem processOneV1_handlerArgs (f : MessageCB) (i : Nat) (m : Message) :
    handlerArgsOf (processOneV1 (some f) i m).1 = m.Body.toList := by
  cases hb : m.Body with
  | none => simp [processOneV1, hb, handlerArgsOf]
  | some body =>
    cases hf : f body <;> simp [processOneV1, hb, hf, handlerArgsOf]

theorem processBatchV1Aux_handlerArgs (f : MessageCB) (msgs : List Message) :
    ∀ i, handlerArgsOf (processBatchV1Aux (some f) i msgs).1 =
      msgs.filterMap (fun m => m.Body) := by
  induction msgs with
  | nil => intro i; simp [processBatchV1Aux, handlerArgsOf]
  | cons m ms ih =>
    intro i
    simp only [processBatchV1Aux, List.filterMap_cons, handlerArgsOf_append,
      processOneV1_handlerArgs, ih (i + 1)]
    cases m.Body <;> simp

theorem processMessagesRest_fst (parse : String → Except String Envelope)
    (cb : Option MessageCB) (recv : Except String (List Message))
    (del : Except String Unit) (st : LoopState) (evs : List Event) :
    (processMessagesRest parse cb recv del st evs).1 = st := by
  cases recv with
  | error e => rfl
  | ok msgs =>
    simp only [processMessagesRest]
    split
    · rfl
    · split
      · rfl
      · cases del <;> rfl

theorem processMessagesV1Rest_fst (cb : Option MessageCB)
    (recv : Except String (List Message)) (del : Except String Unit)
    (st : LoopState) (evs : List Event) :
    (processMessagesV1Rest cb recv del st evs).1 = st := by
  cases recv with
  | error e =>
    simp only [processMessagesV1Rest]
    split <;> rfl
  | ok msgs =>
    simp only [processMessagesV1Rest]
    split
    · rfl
    · split
      · rfl
      · cases del <;> rfl

theorem processMessagesRest_deleteCall (parse : String → Except String Envelope)
    (cb : Option MessageCB) (recv : Except String (List Message))
    (del : Except String Unit) (st : LoopState) (evs : List Event)
    (es : List DeleteEntry)
    (h : Event.deleteCall es ∈ (processMessagesRest parse cb recv del st evs).2) :
    Event.deleteCall es ∈ evs ∨
      ∃ msgs, recv = .ok msgs ∧ es = (processBatch parse cb msgs).2 ∧ es ≠ [] := by
  cases recv with
  | error e =>
    simp only [processMessagesRest, List.mem_append, List.mem_singleton] at h
    rcases h with h | h
    · exact Or.inl h
    · cases h
  | ok msgs =>
    simp only [processMessagesRest] at h
    split at h
    · exact Or.inl h
    · split at h
      · rename_i hlen
        simp only [List.mem_append] at h
        rcases h with h | h
        · exact Or.inl h
        · exact absurd h (processBatch_no_deleteCall parse cb msgs es)
      · rename_i hlen
        have hne : (processBatch parse cb msgs).2 ≠ [] := by
          intro hnil
          exact hlen (by rw [hnil]; rfl)
        cases del with
        | error e =>
          simp only [List.mem_append, List.mem_singleton, List.mem_cons] at h
          rcases h with (h | h) | (h | (h | h))
          · exact Or.inl h
          · exact absurd h (processBatch_no_deleteCall parse cb msgs es)
          · cases h; exact Or.inr ⟨msgs, rfl, rfl, hne⟩
          · cases h
          · cases h
        | ok u =>
          simp only [List.mem_append, List.mem_singleton] at h
          rcases h with (h | h) | h
          · exact Or.inl h
          · exact absurd h (processBatch_no_deleteCall parse cb msgs es)
          · cases h; exact Or.inr ⟨msgs, rfl, rfl, hne⟩

theorem processMessagesRest_deleteCall_mem
    (parse : String → Except String Envelope) (cb : Option MessageCB)
    (msgs : List Message) (del : Except String Unit) (st : LoopState)
    (evs : List Event) (hne : (processBatch parse cb msgs).2 ≠ []) :
    Event.deleteCall (processBatch parse cb msgs).2 ∈
      (processMessagesRest parse cb (.ok msgs) del st evs).2 := by
  have hmne : msgs.length ≠ 0 := by
    intro h0
    rw [List.length_eq_zero] at h0
    subst h0
    exact hne rfl
  simp only [processMessagesRest]
  split
  · omega
  · split
    · rename_i hlen
      exact absurd (List.length_eq_zero.mp hlen) hne
    · cases del <;> simp

theorem processMessagesV1Rest_deleteCall (cb : Option MessageCB)
    (recv : Except String (List Message)) (del : Except String Unit)
    (st : LoopState) (evs : List Event) (es : List DeleteEntry)
    (h : Event.deleteCall es ∈ (processMessagesV1Rest cb recv del st evs).2) :
    Event.deleteCall es ∈ evs ∨
      ∃ msgs, recv = .ok msgs ∧ es = (processBatchV1 cb msgs).2 ∧ es ≠ [] := by
  cases recv with
  | error e =>
    simp only [processMessagesV1Rest] at h
    split at h
    · exact Or.inl h
    · simp only [List.mem_append, List.mem_singleton] at h
      rcases h with h | h
      · exact Or.inl h
      · cases h
  | ok msgs =>
    simp only [processMessagesV1Rest] at h
    split at h
    · exact Or.inl h
    · split at h
      · rename_i hlen
        simp only [List.append_assoc, List.mem_append, List.mem_cons,
          List.not_mem_nil, or_false] at h
        rcases h with h | h | h
        · exact Or.inl h
        · cases h
        · exact absurd h (processBatchV1Aux_no_deleteCall cb msgs es 0)
      · rename_i hlen
        have hne : (processBatchV1 cb msgs).2 ≠ [] := by
          intro hnil
          exact hlen (by rw [show (processBatchV1 cb msgs).2 = [] from hnil]; rfl)
        cases del with
        | error e =>
          simp only [List.append_assoc, List.mem_append, List.mem_cons,
            List.not_mem_nil, or_false] at h
          rcases h with h | h | h | h | h
          · exact Or.inl h
          · cases h
          · exact absurd h (processBatchV1Aux_no_deleteCall cb msgs es 0)
          · cases h; exact Or.inr ⟨msgs, rfl, rfl, hne⟩
          · cases h
        | ok u =>
          simp only [List.append_assoc, List.mem_append, List.mem_cons,
            List.not_mem_nil, or_false] at h
          rcases h with h | h | h | h
          · exact Or.inl h
          · cases h
          · exact absurd h (processBatchV1Aux_no_deleteCall cb msgs es 0)
          · cases h; exact Or.inr ⟨msgs, rfl, rfl, hne⟩

theorem processMessagesV1Rest_deleteCall_mem (cb : Option MessageCB)
    (msgs : List Message) (del : Except String Unit) (st : LoopState)
    (evs : List Event) (hne : (processBatchV1 cb msgs).2 ≠ []) :
    Event.deleteCall (processBatchV1 cb msgs).2 ∈
      (processMessagesV1Rest cb (.ok msgs) del st evs).2 := by
  have hmne : msgs.length ≠ 0 := by
    intro h0
    rw [List.length_eq_zero] at h0
    subst h0
    exact hne rfl
  simp only [processMessagesV1Rest]
  split
  · omega
  · split
    · rename_i hlen
      exact absurd (List.length_eq_zero.mp hlen) hne
    · cases del <;> simp [processBatchV1]

theorem processMessagesCycle_ready (parse : String → Except String Envelope)
    (cb : Option MessageCB) (env : CycleEnv) (sess : Session) (sv : Service) :
    processMessagesCycle parse cb env ⟨some sess, some sv⟩ =
      processMessagesRest parse cb env.receiveResult env.deleteResult
        ⟨some sess, some sv⟩ [] := rfl

theorem processMessagesV1Cycle_ready (cb : Option MessageCB) (env : CycleEnv)
    (sess : Session) (sv : Service) :
    processMessagesV1Cycle cb env ⟨some sess, some sv⟩ =
      processMessagesV1Rest cb env.receiveResult env.deleteResult
        ⟨some sess, some sv⟩ [] := rfl

theorem processOneV1_none_snd (i : Nat) (m : Message) :
    (processOneV1 none i m).2 = none := by
  cases hb : m.Body <;> simp [processOneV1, hb]

theorem processBatchV1_none_snd (msgs : List Message) :
    (processBatchV1 none msgs).2 = [] := by
  rw [processBatchV1, processBatchV1Aux_snd]
  induction msgs with
  | nil => rfl
  | cons m ms ih => simp [List.filterMap_cons, processOneV1_none_snd, ih]

theorem processOne_none_snd (parse : String → Except String Envelope)
    (m : Message) :
    (processOne parse none m).2 = poisonEntryOf parse m := by
  cases hb : m.Body with
  | none => simp [processOne, poisonEntryOf, hb]
  | some body => cases hp : parse body <;> simp [processOne, poisonEntryOf, hb, hp]

/-! ### Concrete instances used by witnesses and counterexamples -/

/-- A parse that always fails, standing for `jsoniter.Unmarshal` on a
non-JSON body such as `"body-a"`. -/
def parseNever : String → Except String Envelope :=
  fun _ => Except.error "unmarshal error"

/-- A parse that always succeeds, wrapping the body as the envelope
payload. -/
def parseWrap : String → Except String Envelope :=
  fun s => Except.ok ⟨s, "2024-01-01T00:00:00Z"⟩

/-- A handler that always succeeds (nil error). -/
def cbOk : MessageCB := fun _ => none

/-- A handler that always fails. -/
def cbErr : MessageCB := fun _ => some "handler error"

def msgA : Message := ⟨some "id-a", some "rh-a", some "body-a"⟩

def msgB : Message := ⟨some "id-b", some "rh-b", some "body-b"⟩

/-- A cycle environment whose session build and delete call succeed. -/
def envOf (recv : Except String (List Message)) : CycleEnv :=
  ⟨Except.ok 0, recv, Except.ok ()⟩

/-- A config whose consumer count is negative. -/
def cfgNeg : SQSConfig :=
  ⟨"arn:aws:sns:x", "us-east-1", "", "", "http://queue", none, -2, 1⟩

/-! ### Claims -/

/-- Claim C10: for every configuration with `ConsumerCnt ≤ 0` (including
negative values), `NewSQS` and `NewSQSV1` start zero worker loops and
still return a consumer object holding the given config and callback. -/
theorem claim_C10 (cfg : SQSConfig) (cb : Option MessageCB)
    (h : cfg.ConsumerCnt ≤ 0) :
    (NewSQS cfg cb).2 = [] ∧ (NewSQS cfg cb).1.config = cfg ∧
      (NewSQS cfg cb).1.messageCB = cb ∧
    (NewSQSV1 cfg cb).2 = [] ∧ (NewSQSV1 cfg cb).1.config = cfg ∧
      (NewSQSV1 cfg cb).1.messageCB = cb := by
  have h0 : cfg.ConsumerCnt.toNat = 0 := Int.toNat_of_nonpos h
  simp [NewSQS, NewSQSV1, workerIndices, h0]

theorem claim_C10_witness :
    (NewSQS cfgNeg (some cbOk)).2 = [] ∧
      (NewSQS cfgNeg (some cbOk)).1.config = cfgNeg ∧
      (NewSQS cfgNeg (some cbOk)).1.messageCB = some cbOk ∧
    (NewSQSV1 cfgNeg (some cbOk)).2 = [] ∧
      (NewSQSV1 cfgNeg (some cbOk)).1.config = cfgNeg ∧
      (NewSQSV1 cfgNeg (some cbOk)).1.messageCB = some cbOk :=
  claim_C10 cfgNeg (some cbOk) (by norm_num [cfgNeg])

/-- Claim C4 fails on the code: in wrapped mode a nil callback does not
prevent acknowledgment — an unparseable body is staged for deletion and
the delete-batch call is issued even though `messageCB` is nil.  Concrete
input: callback nil, one received message with body `"body-a"` that fails
envelope parsing (session, receive and delete succeed). -/
theorem claim_C4_counterexample :
    Event.deleteCall [⟨some "id-a", some "rh-a"⟩] ∈
      (processMessagesCycle parseNever none (envOf (.ok [msgA]))
        ⟨some 0, some 0⟩).2 := by
  decide

/-- Claim C4 amended: with a nil callback the raw variant never stages a
delete-batch entry (its cycles never issue a delete call), while the
wrapped variant stages exactly the poison entries — the messages whose
bodies fail envelope parsing — and no message is ever acknowledged due to
handler success. -/
theorem claim_C4 (parse : String → Except String Envelope) (env : CycleEnv)
    (st : LoopState) (msgs : List Message) :
    (∀ es, Event.deleteCall es ∉ (processMessagesV1Cycle none env st).2) ∧
    (processBatch parse none msgs).2 = msgs.filterMap (poisonEntryOf parse) := by
  constructor
  · intro es h
    have hnone : ∀ msgs', (processBatchV1 (none : Option MessageCB) msgs').2 = [] :=
      processBatchV1_none_snd
    cases hs : st.cfgSession with
    | none =>
      cases hsr : env.sessionResult with
      | error e =>
        simp [processMessagesV1Cycle, hs, hsr] at h
      | ok sess =>
        simp only [processMessagesV1Cycle, hs, hsr] at h
        rcases processMessagesV1Rest_deleteCall none env.receiveResult
            env.deleteResult _ _ es h with hin | ⟨msgs', _, hes, hne⟩
        · simp at hin
        · exact hne (hes.trans (hnone msgs'))
    | some sess =>
      simp only [processMessagesV1Cycle, hs] at h
      rcases processMessagesV1Rest_deleteCall none env.receiveResult
          env.deleteResult _ _ es h with hin | ⟨msgs', _, hes, hne⟩
      · simp at hin
      · exact hne (hes.trans (hnone msgs'))
  · have hpt : ∀ m, (processOne parse none m).2 = poisonEntryOf parse m :=
      processOne_none_snd parse
    rw [processBatch_snd, funext hpt]

theorem claim_C4_witness :
    (∀ es, Event.deleteCall es ∉
      (processMessagesV1Cycle none (envOf (.ok [msgA])) ⟨some 0, some 0⟩).2) ∧
    (processBatch parseNever none [msgA]).2 =
      [msgA].filterMap (poisonEntryOf parseNever) :=
  claim_C4 parseNever (envOf (.ok [msgA])) ⟨some 0, some 0⟩ [msgA]

/-- Claim C3: in wrapped mode, a message whose non-empty body fails to
parse as an envelope yields a staged delete entry (it is `some` for that
message, and a member of the batch's staged entries whenever the message
is in the batch), and no handler invocation occurs for it. -/
theorem claim_C3 (parse : String → Except String Envelope)
    (cb : Option MessageCB) (m : Message) (b e : String)
    (msgs : List Message) (hbody : m.Body = some b)
    (hparse : parse b = .error e) :
    (processOne parse cb m).2 = some ⟨m.MessageId, m.ReceiptHandle⟩ ∧
    (∀ a, Event.handlerCall a ∉ (processOne parse cb m).1) ∧
    (m ∈ msgs →
      (⟨m.MessageId, m.ReceiptHandle⟩ : DeleteEntry) ∈
        (processBatch parse cb msgs).2) := by
  refine ⟨?_, ?_, ?_⟩
  · simp [processOne, hbody, hparse]
  · intro a
    simp [processOne, hbody, hparse]
  · intro hmem
    rw [processBatch_snd]
    exact List.mem_filterMap.mpr ⟨m, hmem, by simp [processOne, hbody, hparse]⟩

theorem claim_C3_witness :
    (processOne parseNever (some cbOk) msgA).2 =
      some ⟨some "id-a", some "rh-a"⟩ ∧
    (∀ a, Event.handlerCall a ∉ (processOne parseNever (some cbOk) msgA).1) ∧
    (msgA ∈ [msgB, msgA] →
      (⟨some "id-a", some "rh-a"⟩ : DeleteEntry) ∈
        (processBatch parseNever (some cbOk) [msgB, msgA]).2) :=
  claim_C3 parseNever (some cbOk) msgA "body-a" "unmarshal error"
    [msgB, msgA] rfl rfl

theorem count_filterMap_entry_one (g : Message → Option DeleteEntry)
    (msgs : List Message) (msg : Message)
    (hshape : ∀ a e, g a = some e → e = ⟨a.MessageId, a.ReceiptHandle⟩)
    (hg : g msg = some ⟨msg.MessageId, msg.ReceiptHandle⟩) (hmem : msg ∈ msgs)
    (huniq : (msgs.filter (fun m => m.MessageId == msg.MessageId
        && m.ReceiptHandle == msg.ReceiptHandle)).length = 1) :
    (msgs.filterMap g).count ⟨msg.MessageId, msg.ReceiptHandle⟩ = 1 := by
  have himp : ∀ a : Message,
      (g a == some (⟨msg.MessageId, msg.ReceiptHandle⟩ : DeleteEntry)) = true →
      (a.MessageId == msg.MessageId && a.ReceiptHandle == msg.ReceiptHandle)
        = true := by
    intro a ha
    rw [beq_iff_eq] at ha
    have h2 := hshape a _ ha
    injection h2 with h21 h22
    rw [← h21, ← h22]
    simp
  have hle := length_filter_le_of_imp _ _ msgs himp
  have hpos : 0 < (msgs.filterMap g).count ⟨msg.MessageId, msg.ReceiptHandle⟩ :=
    List.count_pos_iff.mpr (List.mem_filterMap.mpr ⟨msg, hmem, hg⟩)
  rw [count_filterMap_eq] at hpos ⊢
  omega

/-- Claim C1: in both loop variants, a received message with a non-empty
body whose handler returns success contributes a delete entry carrying
its id and receipt handle to that cycle's delete-batch call, exactly once
(assuming its id/receipt-handle pair occurs once in the batch). -/
theorem claim_C1 (parse : String → Except String Envelope) (f : MessageCB)
    (env : CycleEnv) (sess : Session) (sv : Service) (msgs : List Message)
    (msg : Message) (b : String) (hrecv : env.receiveResult = .ok msgs)
    (hmem : msg ∈ msgs) (hbody : msg.Body = some b)
    (huniq : (msgs.filter (fun m => m.MessageId == msg.MessageId
        && m.ReceiptHandle == msg.ReceiptHandle)).length = 1) :
    (∀ envl, parse b = .ok envl → f envl.Message = none →
      ∃ es, Event.deleteCall es ∈
          (processMessagesCycle parse (some f) env ⟨some sess, some sv⟩).2 ∧
        es.count ⟨msg.MessageId, msg.ReceiptHandle⟩ = 1) ∧
    (f b = none →
      ∃ es, Event.deleteCall es ∈
          (processMessagesV1Cycle (some f) env ⟨some sess, some sv⟩).2 ∧
        es.count ⟨msg.MessageId, msg.ReceiptHandle⟩ = 1) := by
  constructor
  · intro envl hparse hf
    have hg : (processOne parse (some f) msg).2 =
        some ⟨msg.MessageId, msg.ReceiptHandle⟩ := by
      simp [processOne, hbody, hparse, hf]
    have hcnt : ((processBatch parse (some f) msgs).2).count
        ⟨msg.MessageId, msg.ReceiptHandle⟩ = 1 := by
      rw [processBatch_snd]
      exact count_filterMap_entry_one _ msgs msg
        (processOne_entry_shape parse (some f)) hg hmem huniq
    have hne : (processBatch parse (some f) msgs).2 ≠ [] := by
      intro h0
      rw [h0] at hcnt
      simp at hcnt
    refine ⟨(processBatch parse (some f) msgs).2, ?_, hcnt⟩
    rw [processMessagesCycle_ready, hrecv]
    exact processMessagesRest_deleteCall_mem parse (some f) msgs
      env.deleteResult _ [] hne
  · intro hf
    have hg : (processOneV1 (some f) 0 msg).2 =
        some ⟨msg.MessageId, msg.ReceiptHandle⟩ := by
      simp [processOneV1, hbody, hf]
    have hcnt : ((processBatchV1 (some f) msgs).2).count
        ⟨msg.MessageId, msg.ReceiptHandle⟩ = 1 := by
      rw [processBatchV1, processBatchV1Aux_snd]
      exact count_filterMap_entry_one _ msgs msg
        (processOneV1_entry_shape (some f) 0) hg hmem huniq
    have hne : (processBatchV1 (some f) msgs).2 ≠ [] := by
      intro h0
      rw [h0] at hcnt
      simp at hcnt
    refine ⟨(processBatchV1 (some f) msgs).2, ?_, hcnt⟩
    rw [processMessagesV1Cycle_ready, hrecv]
    exact processMessagesV1Rest_deleteCall_mem (some f) msgs
      env.deleteResult _ [] hne

theorem claim_C1_witness :
    (∃ es, Event.deleteCall es ∈
        (processMessagesCycle parseWrap (some cbOk) (envOf (.ok [msgA]))
          ⟨some 0, some 0⟩).2 ∧
      es.count ⟨some "id-a", some "rh-a"⟩ = 1) ∧
    (∃ es, Event.deleteCall es ∈
        (processMessagesV1Cycle (some cbOk) (envOf (.ok [msgA]))
          ⟨some 0, some 0⟩).2 ∧
      es.count ⟨some "id-a", some "rh-a"⟩ = 1) := by
  have h := claim_C1 parseWrap cbOk (envOf (.ok [msgA])) 0 0 [msgA] msgA
    "body-a" rfl (by decide) rfl (by decide)
  exact ⟨h.1 ⟨"body-a", "2024-01-01T00:00:00Z"⟩ rfl rfl, h.2 rfl⟩

/-- Claim C2: in both variants, a message whose handler returns failure
yields no delete entry, and the batch's staged entries around it are
unaffected (processing continues with the rest of the batch). -/
theorem claim_C2 (parse : String → Except String Envelope) (f : MessageCB)
    (m : Message) (b errS : String) (pre post : List Message)
    (hbody : m.Body = some b) :
    (∀ envl, parse b = .ok envl → f envl.Message = some errS →
      (processOne parse (some f) m).2 = none ∧
      (processBatch parse (some f) (pre ++ m :: post)).2 =
        (processBatch parse (some f) pre).2
          ++ (processBatch parse (some f) post).2) ∧
    (f b = some errS →
      (∀ i, (processOneV1 (some f) i m).2 = none) ∧
      (processBatchV1 (some f) (pre ++ m :: post)).2 =
        (processBatchV1 (some f) pre).2
          ++ (processBatchV1 (some f) post).2) := by
  constructor
  · intro envl hparse hf
    have hone : (processOne parse (some f) m).2 = none := by
      simp [processOne, hbody, hparse, hf]
    refine ⟨hone, ?_⟩
    simp [processBatch_snd, List.filterMap_append, List.filterMap_cons, hone]
  · intro hf
    have hone : ∀ i, (processOneV1 (some f) i m).2 = none := by
      intro i
      simp [processOneV1, hbody, hf]
    refine ⟨hone, ?_⟩
    simp [processBatchV1, processBatchV1Aux_snd, List.filterMap_append,
      List.filterMap_cons, hone 0]

theorem claim_C2_witness :
    ((processOne parseWrap (some cbErr) msgA).2 = none ∧
      (processBatch parseWrap (some cbErr) ([msgB] ++ msgA :: [msgB])).2 =
        (processBatch parseWrap (some cbErr) [msgB]).2
          ++ (processBatch parseWrap (some cbErr) [msgB]).2) ∧
    ((∀ i, (processOneV1 (some cbErr) i msgA).2 = none) ∧
      (processBatchV1 (some cbErr) ([msgB] ++ msgA :: [msgB])).2 =
        (processBatchV1 (some cbErr) [msgB]).2
          ++ (processBatchV1 (some cbErr) [msgB]).2) := by
  have h := claim_C2 parseWrap cbErr msgA "body-a" "handler error"
    [msgB] [msgB] rfl
  exact ⟨h.1 ⟨"body-a", "2024-01-01T00:00:00Z"⟩ rfl rfl, h.2 rfl⟩

theorem handlerArgsOf_nil : handlerArgsOf [] = [] := rfl

theorem handlerArgsOf_cons_receivedLog (n : Nat) (evs : List Event) :
    handlerArgsOf (Event.receivedLog n :: evs) = handlerArgsOf evs := rfl

theorem handlerArgsOf_cons_deleteCall (es : List DeleteEntry)
    (evs : List Event) :
    handlerArgsOf (Event.deleteCall es :: evs) = handlerArgsOf evs := rfl

theorem handlerArgsOf_cons_deleteLogError (e : String) (evs : List Event) :
    handlerArgsOf (Event.deleteLogError e :: evs) = handlerArgsOf evs := rfl

theorem processMessagesV1Rest_handlerArgs (cb : Option MessageCB)
    (msgs : List Message) (del : Except String Unit) (st : LoopState)
    (evs : List Event) :
    handlerArgsOf (processMessagesV1Rest cb (.ok msgs) del st evs).2 =
      handlerArgsOf evs ++ handlerArgsOf (processBatchV1 cb msgs).1 := by
  simp only [processMessagesV1Rest]
  split
  · rename_i h
    rw [List.length_eq_zero] at h
    subst h
    simp [processBatchV1, processBatchV1Aux, handlerArgsOf]
  · split
    · simp [handlerArgsOf_append, handlerArgsOf_cons_receivedLog,
        handlerArgsOf_nil, processBatchV1]
    · cases del <;>
        simp [handlerArgsOf_append, handlerArgsOf_cons_receivedLog,
          handlerArgsOf_cons_deleteCall, handlerArgsOf_cons_deleteLogError,
          handlerArgsOf_nil, processBatchV1]

theorem processMessagesV1Rest_no_decode (cb : Option MessageCB)
    (recv : Except String (List Message)) (del : Except String Unit)
    (st : LoopState) (evs : List Event) (b : String)
    (hevs : Event.decodeCall b ∉ evs) :
    Event.decodeCall b ∉ (processMessagesV1Rest cb recv del st evs).2 := by
  intro h
  cases recv with
  | error e =>
    simp only [processMessagesV1Rest] at h
    split at h
    · exact hevs h
    · simp only [List.append_assoc, List.mem_append, List.mem_cons,
        List.not_mem_nil, or_false] at h
      rcases h with h | h
      · exact hevs h
      · cases h
  | ok msgs =>
    simp only [processMessagesV1Rest] at h
    split at h
    · exact hevs h
    · split at h
      · simp only [List.append_assoc, List.mem_append, List.mem_cons,
          List.not_mem_nil, or_false] at h
        rcases h with h | h | h
        · exact hevs h
        · cases h
        · exact processBatchV1Aux_no_decode cb msgs b 0 h
      · cases del with
        | error e =>
          simp only [List.append_assoc, List.mem_append, List.mem_cons,
            List.not_mem_nil, or_false] at h
          rcases h with h | h | h | h | h
          · exact hevs h
          · cases h
          · exact processBatchV1Aux_no_decode cb msgs b 0 h
          · cases h
          · cases h
        | ok u =>
          simp only [List.append_assoc, List.mem_append, List.mem_cons,
            List.not_mem_nil, or_false] at h
          rcases h with h | h | h | h
          · exact hevs h
          · cases h
          · exact processBatchV1Aux_no_decode cb msgs b 0 h
          · cases h

/-- Claim C5: in the raw variant, the handler receives exactly the
non-empty bodies of the received batch, verbatim and in order, and no
envelope decoding occurs anywhere in the cycle. -/
theorem claim_C5 (f : MessageCB) (env : CycleEnv) (sess : Session)
    (sv : Service) (msgs : List Message)
    (hrecv : env.receiveResult = .ok msgs) :
    handlerArgsOf
        (processMessagesV1Cycle (some f) env ⟨some sess, some sv⟩).2 =
      msgs.filterMap (fun m => m.Body) ∧
    ∀ b, Event.decodeCall b ∉
      (processMessagesV1Cycle (some f) env ⟨some sess, some sv⟩).2 := by
  rw [processMessagesV1Cycle_ready, hrecv]
  constructor
  · rw [processMessagesV1Rest_handlerArgs]
    have h0 : handlerArgsOf ([] : List Event) = [] := rfl
    rw [h0, List.nil_append, processBatchV1]
    exact processBatchV1Aux_handlerArgs f msgs 0
  · intro b
    exact processMessagesV1Rest_no_decode (some f) _ _ _ [] b (by simp)

theorem claim_C5_witness :
    handlerArgsOf
        (processMessagesV1Cycle (some cbOk) (envOf (.ok [msgA, msgB]))
          ⟨some 0, some 0⟩).2 =
      [msgA, msgB].filterMap (fun m => m.Body) ∧
    ∀ b, Event.decodeCall b ∉
      (processMessagesV1Cycle (some cbOk) (envOf (.ok [msgA, msgB]))
        ⟨some 0, some 0⟩).2 :=
  claim_C5 cbOk (envOf (.ok [msgA, msgB])) 0 0 [msgA, msgB] rfl

/-- Claim C6: in the raw variant a receive error whose text contains
"context deadline exceeded" is not logged and the cycle is identical to
one that received an empty batch; in the wrapped variant every receive
error is logged. -/
theorem claim_C6 (parse : String → Except String Envelope)
    (cb : Option MessageCB) (env : CycleEnv) (sess : Session) (sv : Service)
    (e : String) (herr : env.receiveResult = .error e) :
    (strContains e "context deadline exceeded" = true →
      processMessagesV1Cycle cb env ⟨some sess, some sv⟩ =
        processMessagesV1Cycle cb { env with receiveResult := .ok [] }
          ⟨some sess, some sv⟩ ∧
      ∀ e', Event.receiveLogError e' ∉
        (processMessagesV1Cycle cb env ⟨some sess, some sv⟩).2) ∧
    Event.receiveLogError e ∈
      (processMessagesCycle parse cb env ⟨some sess, some sv⟩).2 := by
  constructor
  · intro hc
    constructor
    · rw [processMessagesV1Cycle_ready, processMessagesV1Cycle_ready, herr]
      simp [processMessagesV1Rest, hc]
    · intro e' hmem
      rw [processMessagesV1Cycle_ready, herr] at hmem
      simp [processMessagesV1Rest, hc] at hmem
  · rw [processMessagesCycle_ready, herr]
    simp [processMessagesRest]

theorem claim_C6_witness :
    (processMessagesV1Cycle (some cbOk)
        ⟨Except.ok 0, Except.error "context deadline exceeded", Except.ok ()⟩
        ⟨some 0, some 0⟩ =
      processMessagesV1Cycle (some cbOk)
        ⟨Except.ok 0, Except.ok [], Except.ok ()⟩ ⟨some 0, some 0⟩) ∧
    (∀ e', Event.receiveLogError e' ∉
      (processMessagesV1Cycle (some cbOk)
        ⟨Except.ok 0, Except.error "context deadline exceeded", Except.ok ()⟩
        ⟨some 0, some 0⟩).2) ∧
    Event.receiveLogError "context deadline exceeded" ∈
      (processMessagesCycle parseWrap (some cbOk)
        ⟨Except.ok 0, Except.error "context deadline exceeded", Except.ok ()⟩
        ⟨some 0, some 0⟩).2 := by
  have h := claim_C6 parseWrap (some cbOk)
    ⟨Except.ok 0, Except.error "context deadline exceeded", Except.ok ()⟩
    0 0 "context deadline exceeded" rfl
  have h1 := h.1 (by decide)
  exact ⟨h1.1, h1.2, h.2⟩

/-- Claim C7: in both variants an established worker's cycle issues the
delete-batch call exactly when at least one entry was staged in that
cycle, and a receive returning zero messages ends the cycle at once with
an empty trace (no decode, handler or delete work) and unchanged state. -/
theorem claim_C7 (parse : String → Except String Envelope)
    (cb : Option MessageCB) (env : CycleEnv) (sess : Session) (sv : Service)
    (msgs : List Message) (hrecv : env.receiveResult = .ok msgs) :
    (msgs = [] →
      processMessagesCycle parse cb env ⟨some sess, some sv⟩ =
        (⟨some sess, some sv⟩, []) ∧
      processMessagesV1Cycle cb env ⟨some sess, some sv⟩ =
        (⟨some sess, some sv⟩, [])) ∧
    ((∃ es, Event.deleteCall es ∈
        (processMessagesCycle parse cb env ⟨some sess, some sv⟩).2) ↔
      (processBatch parse cb msgs).2 ≠ []) ∧
    ((∃ es, Event.deleteCall es ∈
        (processMessagesV1Cycle cb env ⟨some sess, some sv⟩).2) ↔
      (processBatchV1 cb msgs).2 ≠ []) := by
  refine ⟨?_, ⟨?_, ?_⟩, ⟨?_, ?_⟩⟩
  · intro hnil
    subst hnil
    rw [processMessagesCycle_ready, processMessagesV1Cycle_ready, hrecv]
    exact ⟨rfl, rfl⟩
  · rintro ⟨es, hmem⟩
    rw [processMessagesCycle_ready, hrecv] at hmem
    rcases processMessagesRest_deleteCall parse cb _ _ _ _ es hmem with
      hin | ⟨msgs', heq, hes, hne⟩
    · cases hin
    · injection heq with heq'
      subst heq'
      exact hes ▸ hne
  · intro hne
    refine ⟨(processBatch parse cb msgs).2, ?_⟩
    rw [processMessagesCycle_ready, hrecv]
    exact processMessagesRest_deleteCall_mem parse cb msgs
      env.deleteResult _ [] hne
  · rintro ⟨es, hmem⟩
    rw [processMessagesV1Cycle_ready, hrecv] at hmem
    rcases processMessagesV1Rest_deleteCall cb _ _ _ _ es hmem with
      hin | ⟨msgs', heq, hes, hne⟩
    · cases hin
    · injection heq with heq'
      subst heq'
      exact hes ▸ hne
  · intro hne
    refine ⟨(processBatchV1 cb msgs).2, ?_⟩
    rw [processMessagesV1Cycle_ready, hrecv]
    exact processMessagesV1Rest_deleteCall_mem cb msgs
      env.deleteResult _ [] hne

theorem claim_C7_witness :
    (processMessagesCycle parseWrap (some cbOk) (envOf (.ok []))
        ⟨some 0, some 0⟩ = (⟨some 0, some 0⟩, []) ∧
      processMessagesV1Cycle (some cbOk) (envOf (.ok []))
        ⟨some 0, some 0⟩ = (⟨some 0, some 0⟩, [])) ∧
    ((∃ es, Event.deleteCall es ∈
        (processMessagesCycle parseWrap (some cbOk) (envOf (.ok []))
          ⟨some 0, some 0⟩).2) ↔
      (processBatch parseWrap (some cbOk) []).2 ≠ []) ∧
    ((∃ es, Event.deleteCall es ∈
        (processMessagesV1Cycle (some cbOk) (envOf (.ok []))
          ⟨some 0, some 0⟩).2) ↔
      (processBatchV1 (some cbOk) []).2 ≠ []) := by
  have h := claim_C7 parseWrap (some cbOk) (envOf (.ok [])) 0 0 [] rfl
  exact ⟨h.1 rfl, h.2.1, h.2.2⟩

theorem processMessagesCycle_fst (parse : String → Except String Envelope)
    (cb : Option MessageCB) (env : CycleEnv) (st : LoopState) :
    (processMessagesCycle parse cb env st).1 =
      match st.cfgSession with
      | none =>
        match env.sessionResult with
        | .error _ => st
        | .ok sess => ⟨some sess, ensureService st sess⟩
      | some sess => ⟨some sess, ensureService st sess⟩ := by
  cases hs : st.cfgSession with
  | none =>
    cases hsr : env.sessionResult with
    | error e => simp [processMessagesCycle, hs, hsr]
    | ok sess => simp [processMessagesCycle, hs, hsr, processMessagesRest_fst]
  | some sess => simp [processMessagesCycle, hs, processMessagesRest_fst]

theorem processMessagesV1Cycle_fst (cb : Option MessageCB) (env : CycleEnv)
    (st : LoopState) :
    (processMessagesV1Cycle cb env st).1 =
      match st.cfgSession with
      | none =>
        match env.sessionResult with
        | .error _ => st
        | .ok sess => ⟨some sess, ensureService st sess⟩
      | some sess => ⟨some sess, ensureService st sess⟩ := by
  cases hs : st.cfgSession with
  | none =>
    cases hsr : env.sessionResult with
    | error e => simp [processMessagesV1Cycle, hs, hsr]
    | ok sess =>
      simp [processMessagesV1Cycle, hs, hsr, processMessagesV1Rest_fst]
  | some sess => simp [processMessagesV1Cycle, hs, processMessagesV1Rest_fst]

/-- Claim C8: in both variants a delete-batch failure leaves the worker
state exactly as a successful delete would (no crash, no carry-over), the
entries of any delete call issued in a cycle are a function of that
cycle's own receive outcome alone (a failed cycle's handles are never
resubmitted by the worker), and the loop proceeds to the next cycle. -/
theorem claim_C8 (parse : String → Except String Envelope)
    (cb : Option MessageCB) (env : CycleEnv) (st : LoopState) (e : String)
    (rest : List CycleEnv) :
    (processMessagesCycle parse cb { env with deleteResult := .error e }
        st).1 = (processMessagesCycle parse cb env st).1 ∧
    (∀ es, Event.deleteCall es ∈ (processMessagesCycle parse cb env st).2 →
      es = entriesOfCycleEnv parse cb env) ∧
    processMessagesLoop parse cb (env :: rest) st =
      ((processMessagesLoop parse cb rest
          (processMessagesCycle parse cb env st).1).1,
       (processMessagesCycle parse cb env st).2 ::
         (processMessagesLoop parse cb rest
           (processMessagesCycle parse cb env st).1).2) ∧
    (processMessagesV1Cycle cb { env with deleteResult := .error e } st).1 =
      (processMessagesV1Cycle cb env st).1 ∧
    (∀ es, Event.deleteCall es ∈ (processMessagesV1Cycle cb env st).2 →
      es = entriesOfCycleEnvV1 cb env) ∧
    processMessagesV1Loop cb (env :: rest) st =
      ((processMessagesV1Loop cb rest
          (processMessagesV1Cycle cb env st).1).1,
       (processMessagesV1Cycle cb env st).2 ::
         (processMessagesV1Loop cb rest
           (processMessagesV1Cycle cb env st).1).2) := by
  refine ⟨?_, ?_, rfl, ?_, ?_, rfl⟩
  · rw [processMessagesCycle_fst, processMessagesCycle_fst]
  · intro es hmem
    cases hs : st.cfgSession with
    | none =>
      cases hsr : env.sessionResult with
      | error e' => simp [processMessagesCycle, hs, hsr] at hmem
      | ok sess =>
        simp only [processMessagesCycle, hs, hsr] at hmem
        rcases processMessagesRest_deleteCall parse cb _ _ _ _ es hmem with
          hin | ⟨msgs', hr, hes, _⟩
        · simp at hin
        · rw [entriesOfCycleEnv, hr, hes]
    | some sess =>
      simp only [processMessagesCycle, hs] at hmem
      rcases processMessagesRest_deleteCall parse cb _ _ _ _ es hmem with
        hin | ⟨msgs', hr, hes, _⟩
      · simp at hin
      · rw [entriesOfCycleEnv, hr, hes]
  · rw [processMessagesV1Cycle_fst, processMessagesV1Cycle_fst]
  · intro es hmem
    cases hs : st.cfgSession with
    | none =>
      cases hsr : env.sessionResult with
      | error e' => simp [processMessagesV1Cycle, hs, hsr] at hmem
      | ok sess =>
        simp only [processMessagesV1Cycle, hs, hsr] at hmem
        rcases processMessagesV1Rest_deleteCall cb _ _ _ _ es hmem with
          hin | ⟨msgs', hr, hes, _⟩
        · simp at hin
        · rw [entriesOfCycleEnvV1, hr, hes]
    | some sess =>
      simp only [processMessagesV1Cycle, hs] at hmem
      rcases processMessagesV1Rest_deleteCall cb _ _ _ _ es hmem with
        hin | ⟨msgs', hr, hes, _⟩
      · simp at hin
      · rw [entriesOfCycleEnvV1, hr, hes]

theorem claim_C8_witness :
    (processMessagesCycle parseWrap (some cbOk)
        ⟨Except.ok 0, Except.ok [msgA], Except.error "boom"⟩
        ⟨some 0, some 0⟩).1 =
      (processMessagesCycle parseWrap (some cbOk)
        ⟨Except.ok 0, Except.ok [msgA], Except.ok ()⟩ ⟨some 0, some 0⟩).1 ∧
    ([⟨some "id-a", some "rh-a"⟩] : List DeleteEntry) =
      entriesOfCycleEnv parseWrap (some cbOk)
        ⟨Except.ok 0, Except.ok [msgA], Except.ok ()⟩ ∧
    ([⟨some "id-a", some "rh-a"⟩] : List DeleteEntry) =
      entriesOfCycleEnvV1 (some cbOk)
        ⟨Except.ok 0, Except.ok [msgA], Except.ok ()⟩ := by
  have h := claim_C8 parseWrap (some cbOk)
    ⟨Except.ok 0, Except.ok [msgA], Except.ok ()⟩ ⟨some 0, some 0⟩ "boom" []
  exact ⟨h.1, h.2.1 [⟨some "id-a", some "rh-a"⟩] (by decide),
    h.2.2.2.2.1 [⟨some "id-a", some "rh-a"⟩] (by decide)⟩

theorem ensureService_some (st : LoopState) (sv : Service) (sess : Session)
    (h : st.service = some sv) : ensureService st sess = some sv := by
  simp [ensureService, h]

theorem processMessagesCycle_session_preserved
    (parse : String → Except String Envelope) (cb : Option MessageCB)
    (env : CycleEnv) (st : LoopState) (sess : Session)
    (h : st.cfgSession = some sess) :
    (processMessagesCycle parse cb env st).1.cfgSession = some sess := by
  rw [processMessagesCycle_fst, h]

theorem processMessagesCycle_service_preserved
    (parse : String → Except String Envelope) (cb : Option MessageCB)
    (env : CycleEnv) (st : LoopState) (sv : Service)
    (h : st.service = some sv) :
    (processMessagesCycle parse cb env st).1.service = some sv := by
  rw [processMessagesCycle_fst]
  cases hs : st.cfgSession with
  | none =>
    cases hsr : env.sessionResult with
    | error e => simpa using h
    | ok s => simp [ensureService_some st sv s h]
  | some s => simp [ensureService_some st sv s h]

theorem processMessagesV1Cycle_session_preserved (cb : Option MessageCB)
    (env : CycleEnv) (st : LoopState) (sess : Session)
    (h : st.cfgSession = some sess) :
    (processMessagesV1Cycle cb env st).1.cfgSession = some sess := by
  rw [processMessagesV1Cycle_fst, h]

theorem processMessagesV1Cycle_service_preserved (cb : Option MessageCB)
    (env : CycleEnv) (st : LoopState) (sv : Service)
    (h : st.service = some sv) :
    (processMessagesV1Cycle cb env st).1.service = some sv := by
  rw [processMessagesV1Cycle_fst]
  cases hs : st.cfgSession with
  | none =>
    cases hsr : env.sessionResult with
    | error e => simpa using h
    | ok s => simp [ensureService_some st sv s h]
  | some s => simp [ensureService_some st sv s h]

theorem processMessagesLoop_session_preserved
    (parse : String → Except String Envelope) (cb : Option MessageCB)
    (envs : List CycleEnv) : ∀ st sess, st.cfgSession = some sess →
    (processMessagesLoop parse cb envs st).1.cfgSession = some sess := by
  induction envs with
  | nil => intro st sess h; exact h
  | cons env rest ih =>
    intro st sess h
    simp only [processMessagesLoop]
    exact ih _ sess
      (processMessagesCycle_session_preserved parse cb env st sess h)

theorem processMessagesLoop_service_preserved
    (parse : String → Except String Envelope) (cb : Option MessageCB)
    (envs : List CycleEnv) : ∀ st sv, st.service = some sv →
    (processMessagesLoop parse cb envs st).1.service = some sv := by
  induction envs with
  | nil => intro st sv h; exact h
  | cons env rest ih =>
    intro st sv h
    simp only [processMessagesLoop]
    exact ih _ sv
      (processMessagesCycle_service_preserved parse cb env st sv h)

theorem processMessagesV1Loop_session_preserved (cb : Option MessageCB)
    (envs : List CycleEnv) : ∀ st sess, st.cfgSession = some sess →
    (processMessagesV1Loop cb envs st).1.cfgSession = some sess := by
  induction envs with
  | nil => intro st sess h; exact h
  | cons env rest ih =>
    intro st sess h
    simp only [processMessagesV1Loop]
    exact ih _ sess
      (processMessagesV1Cycle_session_preserved cb env st sess h)

theorem processMessagesV1Loop_service_preserved (cb : Option MessageCB)
    (envs : List CycleEnv) : ∀ st sv, st.service = some sv →
    (processMessagesV1Loop cb envs st).1.service = some sv := by
  induction envs with
  | nil => intro st sv h; exact h
  | cons env rest ih =>
    intro st sv h
    simp only [processMessagesV1Loop]
    exact ih _ sv
      (processMessagesV1Cycle_service_preserved cb env st sv h)

/-- Claim C9: in both variants a session build is attempted only while no
session exists (an existing session makes the cycle independent of the
session-build outcome), a built session and service handle are kept
unchanged by every later cycle of the loop, and a session-build failure
leaves the state untouched and ends only that cycle. -/
theorem claim_C9 (parse : String → Except String Envelope)
    (cb : Option MessageCB) (env : CycleEnv) (st : LoopState)
    (sess : Session) (sv : Service) (envs : List CycleEnv)
    (r : Except String Session) (e : String) :
    (st.cfgSession = some sess →
      processMessagesCycle parse cb { env with sessionResult := r } st =
        processMessagesCycle parse cb env st) ∧
    (st.cfgSession = some sess →
      (processMessagesLoop parse cb envs st).1.cfgSession = some sess) ∧
    (st.service = some sv →
      (processMessagesLoop parse cb envs st).1.service = some sv) ∧
    (st.cfgSession = none → env.sessionResult = .error e →
      processMessagesCycle parse cb env st = (st, [.sessionLogError e])) ∧
    (st.cfgSession = some sess →
      processMessagesV1Cycle cb { env with sessionResult := r } st =
        processMessagesV1Cycle cb env st) ∧
    (st.cfgSession = some sess →
      (processMessagesV1Loop cb envs st).1.cfgSession = some sess) ∧
    (st.service = some sv →
      (processMessagesV1Loop cb envs st).1.service = some sv) ∧
    (st.cfgSession = none → env.sessionResult = .error e →
      processMessagesV1Cycle cb env st = (st, [.sessionLogError e])) := by
  refine ⟨?_, ?_, ?_, ?_, ?_, ?_, ?_, ?_⟩
  · intro h
    simp [processMessagesCycle, h]
  · intro h
    exact processMessagesLoop_session_preserved parse cb envs st sess h
  · intro h
    exact processMessagesLoop_service_preserved parse cb envs st sv h
  · intro h he
    simp [processMessagesCycle, h, he]
  · intro h
    simp [processMessagesV1Cycle, h]
  · intro h
    exact processMessagesV1Loop_session_preserved cb envs st sess h
  · intro h
    exact processMessagesV1Loop_service_preserved cb envs st sv h
  · intro h he
    simp [processMessagesV1Cycle, h, he]

theorem claim_C9_witness :
    (processMessagesCycle parseWrap (some cbOk)
        { envOf (.ok [msgA]) with sessionResult := Except.error "no creds" }
        ⟨some 0, some 0⟩ =
      processMessagesCycle parseWrap (some cbOk) (envOf (.ok [msgA]))
        ⟨some 0, some 0⟩) ∧
    ((processMessagesLoop parseWrap (some cbOk) [envOf (.ok [msgA])]
        ⟨some 0, some 0⟩).1.cfgSession = some 0) ∧
    ((processMessagesLoop parseWrap (some cbOk) [envOf (.ok [msgA])]
        ⟨some 0, some 0⟩).1.service = some 0) ∧
    (processMessagesCycle parseWrap (some cbOk)
        ⟨Except.error "no creds", Except.ok [msgA], Except.ok ()⟩
        ⟨none, none⟩ =
      (⟨none, none⟩, [.sessionLogError "no creds"])) ∧
    (processMessagesV1Cycle (some cbOk)
        { envOf (.ok [msgA]) with sessionResult := Except.error "no creds" }
        ⟨some 0, some 0⟩ =
      processMessagesV1Cycle (some cbOk) (envOf (.ok [msgA]))
        ⟨some 0, some 0⟩) ∧
    ((processMessagesV1Loop (some cbOk) [envOf (.ok [msgA])]
        ⟨some 0, some 0⟩).1.cfgSession = some 0) ∧
    ((processMessagesV1Loop (some cbOk) [envOf (.ok [msgA])]
        ⟨some 0, some 0⟩).1.service = some 0) ∧
    (processMessagesV1Cycle (some cbOk)
        ⟨Except.error "no creds", Except.ok [msgA], Except.ok ()⟩
        ⟨none, none⟩ =
      (⟨none, none⟩, [.sessionLogError "no creds"])) := by
  have h1 := claim_C9 parseWrap (some cbOk) (envOf (.ok [msgA]))
    ⟨some 0, some 0⟩ 0 0 [envOf (.ok [msgA])] (Except.error "no creds")
    "no creds"
  have h2 := claim_C9 parseWrap (some cbOk)
    ⟨Except.error "no creds", Except.ok [msgA], Except.ok ()⟩
    ⟨none, none⟩ 0 0 [] (Except.error "no creds") "no creds"
  exact ⟨h1.1 rfl, h1.2.1 rfl, h1.2.2.1 rfl, h2.2.2.2.1 rfl rfl,
    h1.2.2.2.2.1 rfl, h1.2.2.2.2.2.1 rfl, h1.2.2.2.2.2.2.1 rfl,
    h2.2.2.2.2.2.2.2 rfl rfl⟩

end GoPkg.Sqs
